import Mathlib

/-!
Shallow embedding of the subtitle-synchronization core of the `shadowing`
repository (a language-shadowing practice tool), together with theorems
settling the frozen claims about it.

Conventions of the embedding:
* All subtitle times are integer milliseconds (`Int`), as in the source
  (`SubtitleEntry` stores milliseconds).  The media element stores seconds;
  every write to it divides a millisecond value by 1000 and every read
  multiplies by 1000, so with exact (non-floating) arithmetic the two are
  inverse and the embedding stores the media clock in milliseconds directly.
* `src/src/pages/PlayPage.tsx` contains two near-duplicate variants of the
  play page, separated by a document separator.  Functions of the first
  variant (the one cited by most claims) carry the suffix `A`, functions of
  the second variant the suffix `B`.
* JS array indexing out of bounds yields `undefined` and a subsequent field
  access throws; handlers are only invoked by the UI with in-bounds indices,
  and every theorem below assumes the index in bounds, so the `getD`
  defaults in the embedding are never exercised there.
-/

namespace Shadowing

/-- `SubtitleEntry` from `src/src/components/MoreModal.tsx`: one subtitle
line; all times in milliseconds. -/
structure SubtitleEntry where
  index : Int
  startTime : Int
  endTime : Int
  preciseStartTime : Int
  preciseEndTime : Int
  text : String
deriving Repr, DecidableEq, Inhabited

/-- `Subtitle` from `src/src/components/MoreModal.tsx` (fields not used by
the play-page logic are omitted). -/
structure Subtitle where
  id : Int
  videoId : Int
  entries : List SubtitleEntry
deriving Repr, DecidableEq, Inhabited

/-- `PlayModeValues` from the types module.  The first play-page variant
uses the `CONTINUOUS_PLAY` member, the second the `OFF` member; the
play-mode branches of `checkPlayMode` test only `SINGLE_PAUSE` and
`SINGLE_LOOP` and fall through for every other value. -/
inductive PlayMode where
  | continuousPlay
  | off
  | singlePause
  | singleLoop
deriving Repr, DecidableEq

/-- The state of the media element as seen by the play page: the playback
clock (milliseconds, see the header) and whether the element is paused.
`pause()` sets `paused`; assigning `currentTime` seeks. -/
structure VideoState where
  currentTimeMs : Int
  paused : Bool
deriving Repr, DecidableEq

/-- The `editedTime` state of `PlayPage`: the edit-session buffer holding
the calibrated precise bounds (milliseconds).  In the source it is always
an object with two number fields (initialised to `{0,0}`), so the
`!== undefined` / `!== null` tests on its fields in the handlers are
always true. -/
structure EditedTime where
  startTime : Int
  endTime : Int
deriving Repr, DecidableEq

/-- The component state of `PlayPage` relevant to the claims (both
variants share this shape). `subtitle` is `none` before the track loads,
`video` is `none` before the media element mounts. -/
structure PlayPageState where
  subtitle : Option Subtitle
  currentSubtitleIndex : Int
  playMode : PlayMode
  editMode : Bool
  recordingMode : Bool
  editedTime : EditedTime
  editedText : String
  isSeeking : Bool
  video : Option VideoState
  isPlaying : Bool
deriving Repr, DecidableEq

/-- JS `Array.prototype.findIndex`: index of the first element satisfying
the predicate, `-1` when none does. -/
def jsFindIndex {α : Type} (p : α → Bool) : List α → Int
  | [] => -1
  | a :: l =>
    if p a then 0
    else
      let r := jsFindIndex p l
      if r = -1 then -1 else r + 1

/-- The containment predicate of the scan in `handleTimeUpdate`
(`currentTimeMs >= entry.startTime && currentTimeMs < entry.endTime`). -/
def containsTime (t : Int) (e : SubtitleEntry) : Bool :=
  t ≥ e.startTime && t < e.endTime

/-- The containment scan of `handleTimeUpdate`:
`subtitle.entries.findIndex(entry => currentTimeMs >= entry.startTime && currentTimeMs < entry.endTime)`. -/
def containingIndex (entries : List SubtitleEntry) (t : Int) : Int :=
  jsFindIndex (containsTime t) entries

/-- Entry lookup `subtitle.entries[i]`; the default is never reached in the
theorems (all assume `i` in bounds, matching the UI's call discipline). -/
def entryAt (sub : Subtitle) (i : Int) : SubtitleEntry :=
  sub.entries.getD i.toNat default

/-- `checkPlayMode` of the first play-page variant
(`src/src/pages/PlayPage.tsx`, first copy).  Returns the updated state
(the media element is the only thing it mutates) and the boolean result
(whether the caller may update `currentSubtitleIndex`).  The branch guards
`editMode && editedTime?.startTime !== undefined` reduce to `editMode`
because `editedTime` always holds number fields (see `EditedTime`). -/
def checkPlayModeA (shouldSeekToStart : Bool) (s : PlayPageState) :
    PlayPageState × Bool :=
  match s.subtitle, s.video with
  | some sub, some v =>
    if s.currentSubtitleIndex = -1 then (s, true)
    else if s.isSeeking then (s, true)
    else
      let currentTimeMs := v.currentTimeMs
      let currentEntry := entryAt sub s.currentSubtitleIndex
      if s.editMode || s.recordingMode then
        let preciseStartTime :=
          if s.editMode then s.editedTime.startTime
          else currentEntry.preciseStartTime
        let preciseEndTime :=
          if s.editMode then s.editedTime.endTime
          else currentEntry.preciseEndTime
        let v1 :=
          if shouldSeekToStart then { v with currentTimeMs := preciseStartTime }
          else v
        let v2 := if currentTimeMs ≥ preciseEndTime then { v1 with paused := true } else v1
        ({ s with video := some v2 }, false)
      else if s.playMode = PlayMode.singlePause then
        let v1 :=
          if shouldSeekToStart then
            { v with currentTimeMs := currentEntry.preciseStartTime }
          else v
        let v2 :=
          if currentTimeMs ≥ currentEntry.preciseEndTime then { v1 with paused := true }
          else v1
        ({ s with video := some v2 }, false)
      else if s.playMode = PlayMode.singleLoop then
        let v1 :=
          if currentTimeMs ≥ currentEntry.preciseEndTime then
            { v with currentTimeMs := currentEntry.preciseStartTime }
          else v
        ({ s with video := some v1 }, false)
      else (s, true)
  | _, _ => (s, true)

/-- `handleTimeUpdate` of the first play-page variant: reads the playback
clock, asks `checkPlayModeA` whether the index may be updated, then runs
the containment scan and updates `currentSubtitleIndex` (and clears the
`isSeeking` suspension flag) only when the scan finds an entry.  The
`video = none` case (where the source would dereference a null ref) is
left as the identity; the `timeupdate` event only fires from a mounted
media element and every theorem assumes one. -/
def handleTimeUpdateA (s : PlayPageState) : PlayPageState :=
  match s.subtitle, s.video with
  | some sub, some v =>
    let currentTimeMs := v.currentTimeMs
    let r := checkPlayModeA false s
    if r.2 = false then r.1
    else
      let index := containingIndex sub.entries currentTimeMs
      if index ≠ -1 then
        { r.1 with currentSubtitleIndex := index, isSeeking := false }
      else r.1
  | _, _ => s

/-- `handleTogglePlayPause` (identical in both variants): pause when
playing; otherwise run `checkPlayMode(true)` (the resume-time seek) and
play.  The media element's `play`/`pause` events are modelled as
synchronously updating `isPlaying`. -/
def handleTogglePlayPauseA (s : PlayPageState) : PlayPageState :=
  match s.video with
  | none => s
  | some _ =>
    if s.isPlaying then
      match s.video with
      | some v => { s with video := some { v with paused := true }, isPlaying := false }
      | none => s
    else
      let s1 := (checkPlayModeA true s).1
      match s1.video with
      | some v1 =>
        { s1 with video := some { v1 with paused := false }, isPlaying := true }
      | none => s1

/-- `handleSeeking` (identical in both variants): a scrub starts, the
suspension flag is raised. -/
def handleSeeking (s : PlayPageState) : PlayPageState :=
  { s with isSeeking := true }

/-- `handleSeeked` of the FIRST variant: on scrub end it sets the flag
to `true` (it does not clear it). -/
def handleSeekedA (s : PlayPageState) : PlayPageState :=
  { s with isSeeking := true }

/-- `handleSeeked` of the SECOND variant: on scrub end it clears the
flag. -/
def handleSeekedB (s : PlayPageState) : PlayPageState :=
  { s with isSeeking := false }

/-- `checkPlayMode` of the second play-page variant: identical to the
first except that it has no `isSeeking` early return. -/
def checkPlayModeB (shouldSeekToStart : Bool) (s : PlayPageState) :
    PlayPageState × Bool :=
  match s.subtitle, s.video with
  | some sub, some v =>
    if s.currentSubtitleIndex = -1 then (s, true)
    else
      let currentTimeMs := v.currentTimeMs
      let currentEntry := entryAt sub s.currentSubtitleIndex
      if s.editMode || s.recordingMode then
        let preciseStartTime :=
          if s.editMode then s.editedTime.startTime
          else currentEntry.preciseStartTime
        let preciseEndTime :=
          if s.editMode then s.editedTime.endTime
          else currentEntry.preciseEndTime
        let v1 :=
          if shouldSeekToStart then { v with currentTimeMs := preciseStartTime }
          else v
        let v2 := if currentTimeMs ≥ preciseEndTime then { v1 with paused := true } else v1
        ({ s with video := some v2 }, false)
      else if s.playMode = PlayMode.singlePause then
        let v1 :=
          if shouldSeekToStart then
            { v with currentTimeMs := currentEntry.preciseStartTime }
          else v
        let v2 :=
          if currentTimeMs ≥ currentEntry.preciseEndTime then { v1 with paused := true }
          else v1
        ({ s with video := some v2 }, false)
      else if s.playMode = PlayMode.singleLoop then
        let v1 :=
          if currentTimeMs ≥ currentEntry.preciseEndTime then
            { v with currentTimeMs := currentEntry.preciseStartTime }
          else v
        ({ s with video := some v1 }, false)
      else (s, true)
  | _, _ => (s, true)

/-- `handleTimeUpdate` of the second play-page variant: it returns
immediately while `isSeeking` is set, and when the containment scan finds
an entry it updates the index WITHOUT touching `isSeeking`. -/
def handleTimeUpdateB (s : PlayPageState) : PlayPageState :=
  if s.isSeeking then s
  else
    match s.subtitle, s.video with
    | some sub, some v =>
      let currentTimeMs := v.currentTimeMs
      let r := checkPlayModeB false s
      if r.2 = false then r.1
      else
        let index := containingIndex sub.entries currentTimeMs
        if index ≠ -1 then { r.1 with currentSubtitleIndex := index }
        else r.1
    | _, _ => s

/-- One playback tick of the first variant: the media clock has advanced
to `t` (milliseconds) and the `timeupdate` handler runs. -/
def tickAtA (s : PlayPageState) (t : Int) : PlayPageState :=
  match s.video with
  | none => s
  | some v => handleTimeUpdateA { s with video := some { v with currentTimeMs := t } }

/-- A sequence of playback ticks of the first variant at the given clock
values, in order. -/
def runTicksA (s : PlayPageState) (ts : List Int) : PlayPageState :=
  ts.foldl tickAtA s

/-- `handleTimeOffset` (identical in both variants), as the pure state
update passed to `setEditedTime`: shift the chosen boundary of the edit
buffer by `offset`, forward or backward, relative to its current buffered
value.  No clamping or ordering check is performed. -/
def handleTimeOffset (offset : Int) (isStartTime : Bool) (isForward : Bool)
    (prev : EditedTime) : EditedTime :=
  let newTime := if isStartTime then prev.startTime else prev.endTime
  let newOffset := if isForward then newTime + offset else newTime - offset
  if isStartTime then { prev with startTime := newOffset }
  else { prev with endTime := newOffset }

/-- JS `String.prototype.trim` (used as `editedText?.trim() ?? ""` in the
save handler): strip leading and trailing whitespace.  Implemented here
directly on the character list so it evaluates in the kernel; the
whitespace set (`Char.isWhitespace`) agrees with JS on the ASCII
whitespace the claims exercise. -/
def jsTrim (s : String) : String :=
  String.mk
    (((s.data.dropWhile Char.isWhitespace).reverse.dropWhile
      Char.isWhitespace).reverse)

/-- The messages the save handler surfaces to the user (antd `message`):
the validation warning for empty text and the success toast.  (The
`message.error` of the persistence-failure catch branch is out of scope:
the durable store is modelled as always succeeding.) -/
inductive UserMessage where
  | emptyTextWarning
  | saveSuccess
deriving Repr, DecidableEq

/-- The observable outcome of `handleSaveSubtitleEdit`.

`entriesAfter` is the contents of the single `entries` array after the
handler returns.  In the source, `const updatedSubtitle = { ...subtitle }`
copies only the top-level track object — its `entries` field still
references the very same array, and `currentEntry` is the entry object
the ORIGINAL track holds, mutated field by field.  Hence `entriesAfter`
is what a holder of the pre-save track reference reads afterwards, as
well as what the new reference reads. -/
structure SaveResult where
  entriesAfter : List SubtitleEntry
  persisted : Option (List SubtitleEntry)
  editMode : Bool
  editedTime : EditedTime
  editedText : String
  message : Option UserMessage
deriving Repr, DecidableEq

/-- `handleSaveSubtitleEdit` (identical in both variants).  The guard
`!editedTime` of the source is always false (`editedTime` is always an
object, see `EditedTime`), and the `!== null` tests on its number fields
are always true.  On success the handler writes the updated entries to
the database, swaps the in-memory reference (both references now showing
`entriesAfter`, see `SaveResult`) and runs `handleExitEditMode` (edit
mode off, buffer reset to `{0,0}`, text reset to `""`). -/
def handleSaveSubtitleEdit (s : PlayPageState) : SaveResult :=
  match s.subtitle with
  | none =>
    { entriesAfter := [], persisted := none, editMode := s.editMode,
      editedTime := s.editedTime, editedText := s.editedText, message := none }
  | some sub =>
    if s.currentSubtitleIndex = -1 then
      { entriesAfter := sub.entries, persisted := none, editMode := s.editMode,
        editedTime := s.editedTime, editedText := s.editedText, message := none }
    else
      let trimmedText := jsTrim s.editedText
      if trimmedText = "" then
        { entriesAfter := sub.entries, persisted := none, editMode := s.editMode,
          editedTime := s.editedTime, editedText := s.editedText,
          message := some UserMessage.emptyTextWarning }
      else
        let i := s.currentSubtitleIndex.toNat
        let currentEntry := sub.entries.getD i default
        let updatedEntry :=
          { currentEntry with
              preciseStartTime := s.editedTime.startTime,
              preciseEndTime := s.editedTime.endTime,
              text := trimmedText }
        let newEntries := sub.entries.set i updatedEntry
        { entriesAfter := newEntries, persisted := some newEntries,
          editMode := false, editedTime := ⟨0, 0⟩, editedText := "",
          message := some UserMessage.saveSuccess }

/-- An event on the timeline of `useSubtitleIndexPersist`
(`src/src/hooks/useSubtitleIndexPersist.ts`).  Times are absolute
milliseconds; `mediaId` is fixed for the session and omitted.
`change t i`: the `currentSubtitleIndex` dependency changes to `i` at
time `t` (so the effect re-runs).  `idle t`: the clock reaches `t` with
no activity (a pending debounce timer may fire).  `teardown t`: the
component unmounts at `t` (the last effect's cleanup runs). -/
inductive PersistEvent where
  | change (t : Nat) (i : Int)
  | idle (t : Nat)
  | teardown (t : Nat)
deriving Repr, DecidableEq

/-- State of the persistence hook's timeline.  `pending` is the lodash
`debounce(500)` trailing-edge timer: fire time and captured index.
`cleanup` is the index captured by the cleanup of the currently
registered effect (`none` after the first render, whose effect registers
no cleanup).  `writes` records every `updateSubtitleIndex` call as
(time, index). -/
structure PersistState where
  pending : Option (Nat × Int)
  cleanup : Option Int
  writes : List (Nat × Int)
deriving Repr, DecidableEq

/-- Fire the pending debounced write if its timer expires by time `t`. -/
def flushPending (t : Nat) (s : PersistState) : PersistState :=
  match s.pending with
  | some (ft, i) =>
    if ft ≤ t then { s with pending := none, writes := s.writes ++ [(ft, i)] }
    else s
  | none => s

/-- One event of the hook's timeline.  On a dependency change React first
runs the previous effect's cleanup — which cancels the pending debounce
and SYNCHRONOUSLY writes the value it captured — then the new effect
calls the debounced save, scheduling a trailing-edge write 500 ms out.
On teardown only the cleanup runs. -/
def stepPersist (s : PersistState) : PersistEvent → PersistState
  | PersistEvent.change t i =>
    let s1 := flushPending t s
    let s2 :=
      match s1.cleanup with
      | some prev => { s1 with pending := none, writes := s1.writes ++ [(t, prev)] }
      | none => s1
    { s2 with pending := some (t + 500, i), cleanup := some i }
  | PersistEvent.idle t => flushPending t s
  | PersistEvent.teardown t =>
    let s1 := flushPending t s
    match s1.cleanup with
    | some prev =>
      { s1 with pending := none, writes := s1.writes ++ [(t, prev)], cleanup := none }
    | none => s1

/-- Run the hook's timeline from the just-mounted state (first render done:
no pending timer, no registered cleanup, no writes). -/
def runPersist (events : List PersistEvent) : PersistState :=
  events.foldl stepPersist ⟨none, none, []⟩

/-- The `direction` parameter of `findSubtitleIndexByTime`
(`'next' | 'previous'`). -/
inductive Direction where
  | next
  | previous
deriving Repr, DecidableEq

/-- `entries[i].startTime` as read by the binary search.  The default is
never reached: the loop keeps `0 ≤ mid < entries.length` whenever it
reads. -/
def startAt (entries : List SubtitleEntry) (i : Int) : Int :=
  (entries.getD i.toNat default).startTime

/-- The while-loop of `findSubtitleIndexByTime` (first variant).  `mid` is
`Math.floor((left + right) / 2)`; Lean's `/` on `Int` rounds toward
negative infinity for the positive divisor 2, exactly like `Math.floor`
(and within every reachable call `left ≥ 0` anyway). -/
def findLoop (entries : List SubtitleEntry) (targetTime : Int)
    (direction : Direction) (left right result : Int) : Int :=
  if left ≤ right then
    let mid := (left + right) / 2
    let startTime := startAt entries mid
    match direction with
    | Direction.next =>
      if startTime > targetTime then
        findLoop entries targetTime direction left (mid - 1) mid
      else
        findLoop entries targetTime direction (mid + 1) right result
    | Direction.previous =>
      if startTime < targetTime then
        findLoop entries targetTime direction (mid + 1) right mid
      else
        findLoop entries targetTime direction left (mid - 1) result
  else result
termination_by (right + 1 - left).toNat
decreasing_by all_goals omega

/-- `findSubtitleIndexByTime` from the first play-page variant (the second
variant navigates by index arithmetic only and has no such function):
binary search for the nearest entry with `startTime > targetTime` (next)
or `startTime < targetTime` (previous), comparing `startTime` only;
returns -1 when none exists. -/
def findSubtitleIndexByTime (entries : List SubtitleEntry) (targetTime : Int)
    (direction : Direction) : Int :=
  findLoop entries targetTime direction 0 ((entries.length : Int) - 1) (-1)

/-- The situation of claim C5: track loaded, media mounted, a resolved
current index, SinglePause as the base mode, no edit/record override, no
scrub in progress. -/
def SinglePauseReady (s : PlayPageState) : Prop :=
  s.subtitle.isSome ∧ s.video.isSome ∧ s.currentSubtitleIndex ≠ -1 ∧
  s.playMode = PlayMode.singlePause ∧ s.editMode = false ∧
  s.recordingMode = false ∧ s.isSeeking = false

/-- The track invariant the loaders guarantee: entries sorted ascending by
`startTime`. -/
def SortedByStart (es : List SubtitleEntry) : Prop :=
  es.Pairwise (fun a b => a.startTime ≤ b.startTime)

/-- Entries pairwise non-overlapping (each one ends no later than any later
one starts).  Not guaranteed by the data model (only start-sortedness is);
used to state when the containing index is unique. -/
def NonOverlapping (es : List SubtitleEntry) : Prop :=
  es.Pairwise (fun a b => a.endTime ≤ b.startTime)

theorem containsTime_iff {t : Int} {e : SubtitleEntry} :
    containsTime t e = true ↔ e.startTime ≤ t ∧ t < e.endTime := by
  simp [containsTime, ge_iff_le]

theorem jsFindIndex_nonneg {α : Type} (p : α → Bool) (l : List α)
    (h : jsFindIndex p l ≠ -1) : 0 ≤ jsFindIndex p l := by
  induction l with
  | nil => simp [jsFindIndex] at h
  | cons a l ih =>
    simp only [jsFindIndex] at h ⊢
    by_cases hp : p a
    · simp [hp]
    · simp only [hp, if_false] at h ⊢
      by_cases hr : jsFindIndex p l = -1
      · simp [hr] at h
      · have := ih hr
        simp only [hr, if_false]
        omega

theorem jsFindIndex_eq_neg_one_iff {α : Type} (p : α → Bool) (l : List α) :
    jsFindIndex p l = -1 ↔ ∀ a ∈ l, p a = false := by
  induction l with
  | nil => simp [jsFindIndex]
  | cons a l ih =>
    simp only [jsFindIndex]
    by_cases hp : p a
    · simp [hp]
    · by_cases hr : jsFindIndex p l = -1
      · simp only [hp, if_false, hr, if_true]
        constructor
        · intro _ b hb
          rcases List.mem_cons.mp hb with rfl | hbl
          · exact eq_false_of_ne_true hp
          · exact ih.mp hr b hbl
        · intro _
          rfl
      · have h0 := jsFindIndex_nonneg p l hr
        constructor
        · intro h
          simp only [hp, if_false, hr] at h
          omega
        · intro h
          exact absurd (ih.mpr (fun b hb => h b (List.mem_cons_of_mem a hb))) hr

theorem jsFindIndex_found {α : Type} (p : α → Bool) (l : List α)
    (h : jsFindIndex p l ≠ -1) :
    ∃ a, l[(jsFindIndex p l).toNat]? = some a ∧ p a = true := by
  induction l with
  | nil => simp [jsFindIndex] at h
  | cons a l ih =>
    by_cases hp : p a
    · exact ⟨a, by simp [jsFindIndex, hp], hp⟩
    · simp only [jsFindIndex, hp, if_false] at h ⊢
      by_cases hr : jsFindIndex p l = -1
      · simp [hr] at h
      · obtain ⟨b, hb, hpb⟩ := ih hr
        have h0 := jsFindIndex_nonneg p l hr
        refine ⟨b, ?_, hpb⟩
        simp only [hr, if_false]
        have : (jsFindIndex p l + 1).toNat = (jsFindIndex p l).toNat + 1 := by omega
        simp [this, hb]

theorem jsFindIndex_least {α : Type} (p : α → Bool) (l : List α) (j : Nat)
    (hj : (j : Int) < jsFindIndex p l) :
    ∀ a ∈ l[j]?, p a = false := by
  induction l generalizing j with
  | nil => simp [jsFindIndex] at hj; omega
  | cons a l ih =>
    by_cases hp : p a
    · simp [jsFindIndex, hp] at hj; omega
    · simp only [jsFindIndex, hp, if_false] at hj
      by_cases hr : jsFindIndex p l = -1
      · simp [hr] at hj; omega
      · simp only [hr, if_false] at hj
        cases j with
        | zero => intro b hb; simp at hb; subst hb; exact eq_false_of_ne_true hp
        | succ j' =>
          have : (j' : Int) < jsFindIndex p l := by push_cast at hj ⊢; omega
          simpa using ih j' this

theorem jsFindIndex_complete {α : Type} (p : α → Bool) (l : List α) (j : Nat)
    (a : α) (hget : l[j]? = some a) (hpa : p a = true) :
    jsFindIndex p l ≠ -1 := by
  intro hcontra
  have hall := (jsFindIndex_eq_neg_one_iff p l).mp hcontra
  have hmem : a ∈ l := by
    have hlt : j < l.length := by
      by_contra hge
      simp [List.getElem?_eq_none (le_of_not_lt hge)] at hget
    rw [List.getElem?_eq_getElem hlt] at hget
    exact Option.some_injective _ hget ▸ List.getElem_mem hlt
  exact absurd (hall a hmem) (by simp [hpa])

/-- Bridge from start-sortedness at list positions. -/
theorem sortedByStart_le {es : List SubtitleEntry} (hs : SortedByStart es)
    {i j : Nat} (hij : i ≤ j) (hj : j < es.length) :
    (es.getD i default).startTime ≤ (es.getD j default).startTime := by
  rcases eq_or_lt_of_le hij with rfl | hlt
  · exact le_refl _
  · have hi : i < es.length := lt_trans hlt hj
    have := (List.pairwise_iff_getElem.mp hs) i j hi hj hlt
    simpa [List.getD_eq_getElem?_getD, List.getElem?_eq_getElem, hi, hj] using this

/-- Helper: the play page's containment scan returns the least containing
index, or -1 when no entry contains the time. -/
theorem containingIndex_spec (entries : List SubtitleEntry) (t : Int) :
    (containingIndex entries t = -1 ↔
      ∀ e ∈ entries, ¬(e.startTime ≤ t ∧ t < e.endTime)) ∧
    (containingIndex entries t ≠ -1 →
      0 ≤ containingIndex entries t ∧
      (∃ e, entries[(containingIndex entries t).toNat]? = some e ∧
        e.startTime ≤ t ∧ t < e.endTime) ∧
      (∀ (j : Nat), (j : Int) < containingIndex entries t →
        ∀ e' ∈ entries[j]?, ¬(e'.startTime ≤ t ∧ t < e'.endTime))) := by
  refine ⟨?_, fun h => ⟨jsFindIndex_nonneg _ _ h, ?_, ?_⟩⟩
  · rw [containingIndex, jsFindIndex_eq_neg_one_iff]
    constructor
    · intro hall e he hc
      have := hall e he
      rw [← containsTime_iff] at hc
      simp [hc] at this
    · intro hall e he
      have h1 := hall e he
      exact Bool.eq_false_iff.mpr (fun htrue => h1 (containsTime_iff.mp htrue))
  · obtain ⟨e, he, hpe⟩ := jsFindIndex_found _ _ h
    exact ⟨e, he, containsTime_iff.mp hpe⟩
  · intro j hj e' he' hc
    have := jsFindIndex_least (containsTime t) entries j hj e' he'
    rw [← containsTime_iff] at hc
    simp [hc] at this

/-- Helper: when the entries are pairwise non-overlapping, a containing
index is necessarily the one the scan returns (uniqueness). -/
theorem containingIndex_unique (entries : List SubtitleEntry) (t : Int)
    (hno : NonOverlapping entries) (j : Nat) (e' : SubtitleEntry)
    (hget : entries[j]? = some e') (hc : e'.startTime ≤ t ∧ t < e'.endTime) :
    (j : Int) = containingIndex entries t := by
  have hne := jsFindIndex_complete (containsTime t) entries j e' hget
    (containsTime_iff.mpr hc)
  obtain ⟨h0, ⟨e, he, hce⟩, hleast⟩ := (containingIndex_spec entries t).2 hne
  by_contra hjr
  have hj : j < entries.length := by
    by_contra hge
    simp [List.getElem?_eq_none (le_of_not_lt hge)] at hget
  have hrlen : (containingIndex entries t).toNat < entries.length := by
    by_contra hge
    simp [List.getElem?_eq_none (le_of_not_lt hge)] at he
  rcases lt_or_gt_of_ne hjr with hlt | hgt
  · exact hleast j hlt e' (Option.mem_def.mpr hget) hc
  · have hrj : (containingIndex entries t).toNat < j := by omega
    have hpair := (List.pairwise_iff_getElem.mp hno) _ j hrlen hj hrj
    rw [List.getElem?_eq_getElem hrlen] at he
    rw [List.getElem?_eq_getElem hj] at hget
    simp only [Option.some.injEq] at he hget
    rw [he] at hpair
    rw [hget] at hpair
    have h1 := hce.2
    have h2 := hc.1
    omega

/-- Helper: `checkPlayMode` of the first variant only touches the media
element; every component-state field of its result is that of its
argument, and a mounted media element stays mounted. -/
theorem checkPlayModeA_fst_fields (b : Bool) (s : PlayPageState) :
    (checkPlayModeA b s).1.currentSubtitleIndex = s.currentSubtitleIndex ∧
    (checkPlayModeA b s).1.subtitle = s.subtitle ∧
    (checkPlayModeA b s).1.playMode = s.playMode ∧
    (checkPlayModeA b s).1.editMode = s.editMode ∧
    (checkPlayModeA b s).1.recordingMode = s.recordingMode ∧
    (checkPlayModeA b s).1.editedTime = s.editedTime ∧
    (checkPlayModeA b s).1.isSeeking = s.isSeeking ∧
    (checkPlayModeA b s).1.video.isSome = s.video.isSome := by
  unfold checkPlayModeA
  rcases hs : s.subtitle with _ | sub <;> rcases hv : s.video with _ | v <;>
    simp [hs, hv]
  split_ifs <;> simp [hs, hv]

/-- C3 — counterexample.  The claim asserts that for every track sorted
ascending by `startTime` the scan returns THE UNIQUE containing index;
but start-sortedness permits overlapping entries, and on the sorted track
below both entry 0 and entry 1 contain t = 1500 (so no unique containing
index exists), while the scan returns 0. -/
theorem containing_unique_counterexample :
    SortedByStart [⟨0, 0, 2000, 0, 2000, "a"⟩, ⟨1, 1000, 3000, 1000, 3000, "b"⟩] ∧
    ((0 : Int) ≤ 1500 ∧ (1500 : Int) < 2000) ∧
    ((1000 : Int) ≤ 1500 ∧ (1500 : Int) < 3000) ∧
    containingIndex
      [⟨0, 0, 2000, 0, 2000, "a"⟩, ⟨1, 1000, 3000, 1000, 3000, "b"⟩] 1500 = 0 := by
  refine ⟨?_, by decide, by decide, by decide⟩
  unfold SortedByStart
  decide

/-- C3 (amended): for every track and timestamp `t` the containment scan
returns the LEAST index `i` with `entries[i].startTime ≤ t <
entries[i].endTime` (half-open bounds), or -1 when no entry contains `t`;
when the entries are moreover pairwise non-overlapping, that index is the
unique containing one. -/
theorem containing_returns_least_containing_index
    (entries : List SubtitleEntry) (t : Int) :
    (containingIndex entries t = -1 ↔
      ∀ e ∈ entries, ¬(e.startTime ≤ t ∧ t < e.endTime)) ∧
    (containingIndex entries t ≠ -1 →
      0 ≤ containingIndex entries t ∧
      (∃ e, entries[(containingIndex entries t).toNat]? = some e ∧
        e.startTime ≤ t ∧ t < e.endTime) ∧
      (∀ (j : Nat), (j : Int) < containingIndex entries t →
        ∀ e' ∈ entries[j]?, ¬(e'.startTime ≤ t ∧ t < e'.endTime))) ∧
    (NonOverlapping entries →
      ∀ (j : Nat) (e' : SubtitleEntry), entries[j]? = some e' →
        e'.startTime ≤ t ∧ t < e'.endTime →
        (j : Int) = containingIndex entries t) :=
  ⟨(containingIndex_spec entries t).1, (containingIndex_spec entries t).2,
    fun hno j e' hget hc => containingIndex_unique entries t hno j e' hget hc⟩

/-- C3 — witness: on the disjoint sorted track of the spec scenario
(`[{0,0,1000},{1,1000,2000}]`), t = 1500 lies in entry 1, and the
uniqueness clause of the theorem identifies the scan's result with it. -/
theorem containing_returns_least_containing_index_witness :
    ((1 : Nat) : Int) =
      containingIndex
        [⟨0, 0, 1000, 0, 1000, "a"⟩, ⟨1, 1000, 2000, 1000, 2000, "b"⟩] 1500 :=
  (containing_returns_least_containing_index
      [⟨0, 0, 1000, 0, 1000, "a"⟩, ⟨1, 1000, 2000, 1000, 2000, "b"⟩] 1500).2.2
    (by unfold NonOverlapping; decide) 1 ⟨1, 1000, 2000, 1000, 2000, "b"⟩
    (by decide) (by decide)

/-- C4: whenever the containment scan returns -1 (the playback time falls
in a gap), the tick handler of the first variant leaves
`currentSubtitleIndex` unchanged — it is never reset on a not-found
result. -/
theorem tick_gap_preserves_index (s : PlayPageState) (sub : Subtitle)
    (v : VideoState) (hsub : s.subtitle = some sub) (hv : s.video = some v)
    (hscan : containingIndex sub.entries v.currentTimeMs = -1) :
    (handleTimeUpdateA s).currentSubtitleIndex = s.currentSubtitleIndex := by
  unfold handleTimeUpdateA
  rw [hsub, hv]
  simp only [hscan]
  split_ifs with h1 h2
  · exact (checkPlayModeA_fst_fields false s).1
  · exact absurd rfl h2
  · exact (checkPlayModeA_fst_fields false s).1

/-- C4 — witness: the spec scenario — entries `[{0,0,900},{1,1000,2000}]`,
t = 950 (a gap, the scan hypothesis is discharged by evaluation), previous
index 0 — leaves `currentSubtitleIndex` at 0 after the tick. -/
theorem tick_gap_preserves_index_witness :
    (handleTimeUpdateA
      { subtitle := some ⟨1, 1, [⟨0, 0, 900, 0, 900, "a"⟩, ⟨1, 1000, 2000, 1000, 2000, "b"⟩]⟩
        currentSubtitleIndex := 0
        playMode := PlayMode.continuousPlay
        editMode := false
        recordingMode := false
        editedTime := ⟨0, 0⟩
        editedText := ""
        isSeeking := false
        video := some ⟨950, false⟩
        isPlaying := true }).currentSubtitleIndex = 0 :=
  tick_gap_preserves_index _ _ _ rfl rfl (by decide)

/-- Helper: under the C5 situation, `checkPlayMode` of the first variant
takes the SinglePause branch: it seeks to the current entry's
`preciseStartTime` when asked to, pauses when the (pre-read) clock has
reached `preciseEndTime`, and answers `false` (no index update). -/
theorem checkPlayModeA_singlePause_eq (b : Bool) (s : PlayPageState)
    (sub : Subtitle) (v : VideoState)
    (hsub : s.subtitle = some sub) (hv : s.video = some v)
    (hi : s.currentSubtitleIndex ≠ -1)
    (hmode : s.playMode = PlayMode.singlePause)
    (hedit : s.editMode = false) (hrec : s.recordingMode = false)
    (hseek : s.isSeeking = false) :
    checkPlayModeA b s =
      ({ s with video := some (
          let e := entryAt sub s.currentSubtitleIndex
          let v1 := if b then { v with currentTimeMs := e.preciseStartTime } else v
          if v.currentTimeMs ≥ e.preciseEndTime then { v1 with paused := true }
          else v1) },
        false) := by
  unfold checkPlayModeA
  rw [hsub, hv]
  simp only [hi, hseek, hedit, hrec, hmode, Bool.or_self, Bool.false_eq_true,
    if_false, ite_false, ite_true, reduceIte]

/-- Helper: when `checkPlayMode` answers `false`, the tick handler of the
first variant returns its state unchanged apart from the media element. -/
theorem handleTimeUpdateA_of_blocked (s : PlayPageState)
    (hblock : (checkPlayModeA false s).2 = false) :
    handleTimeUpdateA s = (checkPlayModeA false s).1 := by
  rcases hsub : s.subtitle with _ | sub
  · exfalso
    unfold checkPlayModeA at hblock
    rw [hsub] at hblock
    simp at hblock
  · rcases hv : s.video with _ | v
    · exfalso
      unfold checkPlayModeA at hblock
      rw [hsub, hv] at hblock
      simp at hblock
    · unfold handleTimeUpdateA
      rw [hsub, hv]
      simp [hblock]

/-- Helper: one tick preserves the C5 situation and the current index. -/
theorem tickAtA_singlePause (s : PlayPageState) (h : SinglePauseReady s)
    (t : Int) :
    SinglePauseReady (tickAtA s t) ∧
    (tickAtA s t).currentSubtitleIndex = s.currentSubtitleIndex := by
  obtain ⟨hsub, hv, hi, hmode, hedit, hrec, hseek⟩ := h
  rcases hs : s.subtitle with _ | sub
  · rw [hs] at hsub; simp at hsub
  rcases hvs : s.video with _ | v
  · rw [hvs] at hv; simp at hv
  have hstep : tickAtA s t =
      handleTimeUpdateA { s with video := some { v with currentTimeMs := t } } := by
    unfold tickAtA
    rw [hvs]
  have hblock :
      (checkPlayModeA false
        { s with video := some { v with currentTimeMs := t } }).2 = false := by
    rw [checkPlayModeA_singlePause_eq false
      { s with video := some { v with currentTimeMs := t } } sub
      { v with currentTimeMs := t } hs rfl hi hmode hedit hrec hseek]
  have heq : tickAtA s t =
      (checkPlayModeA false { s with video := some { v with currentTimeMs := t } }).1 := by
    rw [hstep, handleTimeUpdateA_of_blocked _ hblock]
  rw [heq, checkPlayModeA_singlePause_eq false
    { s with video := some { v with currentTimeMs := t } } sub
    { v with currentTimeMs := t } hs rfl hi hmode hedit hrec hseek]
  exact ⟨⟨by simp [hs], rfl, hi, hmode, hedit, hrec, hseek⟩, rfl⟩

/-- Helper: any sequence of ticks preserves the C5 situation and the
current index. -/
theorem runTicksA_singlePause (ts : List Int) (s : PlayPageState)
    (h : SinglePauseReady s) :
    (runTicksA s ts).currentSubtitleIndex = s.currentSubtitleIndex ∧
    SinglePauseReady (runTicksA s ts) := by
  induction ts generalizing s with
  | nil => exact ⟨rfl, h⟩
  | cons t ts ih =>
    have hstep := tickAtA_singlePause s h t
    have hrest := ih (tickAtA s t) hstep.1
    refine ⟨?_, hrest.2⟩
    calc (runTicksA s (t :: ts)).currentSubtitleIndex
        = (runTicksA (tickAtA s t) ts).currentSubtitleIndex := rfl
      _ = (tickAtA s t).currentSubtitleIndex := hrest.1
      _ = s.currentSubtitleIndex := hstep.2

/-- C5: under SinglePause with a resolved index, no override and no scrub:
(1) an explicit resume (toggle while paused) seeks the media clock to the
current entry's `preciseStartTime` and plays; (2) on a tick whose clock
has reached the entry's `preciseEndTime` the engine pauses; (3) no
sequence of ticks — at any clock values, including repeatedly past the
boundary — ever changes `currentSubtitleIndex`. -/
theorem singlePause_behavior (s : PlayPageState) (sub : Subtitle)
    (v : VideoState) (hsub : s.subtitle = some sub) (hv : s.video = some v)
    (hi : s.currentSubtitleIndex ≠ -1)
    (hmode : s.playMode = PlayMode.singlePause)
    (hedit : s.editMode = false) (hrec : s.recordingMode = false)
    (hseek : s.isSeeking = false) :
    (s.isPlaying = false →
      ∃ v', (handleTogglePlayPauseA s).video = some v' ∧
        v'.currentTimeMs = (entryAt sub s.currentSubtitleIndex).preciseStartTime ∧
        v'.paused = false ∧ (handleTogglePlayPauseA s).isPlaying = true) ∧
    (v.currentTimeMs ≥ (entryAt sub s.currentSubtitleIndex).preciseEndTime →
      ∃ v', (handleTimeUpdateA s).video = some v' ∧ v'.paused = true) ∧
    (∀ ts : List Int,
      (runTicksA s ts).currentSubtitleIndex = s.currentSubtitleIndex) := by
  have hready : SinglePauseReady s :=
    ⟨by rw [hsub]; rfl, by rw [hv]; rfl, hi, hmode, hedit, hrec, hseek⟩
  refine ⟨?_, ?_, fun ts => (runTicksA_singlePause ts s hready).1⟩
  · intro hplay
    unfold handleTogglePlayPauseA
    rw [hv, hplay]
    simp only [Bool.false_eq_true, if_false]
    rw [checkPlayModeA_singlePause_eq true s sub v hsub hv hi hmode hedit hrec hseek]
    refine ⟨_, rfl, ?_, rfl, rfl⟩
    by_cases hc :
        v.currentTimeMs ≥ (entryAt sub s.currentSubtitleIndex).preciseEndTime <;>
      simp [hc]
  · intro hge
    have hblock : (checkPlayModeA false s).2 = false := by
      rw [checkPlayModeA_singlePause_eq false s sub v hsub hv hi hmode hedit hrec hseek]
    rw [handleTimeUpdateA_of_blocked s hblock,
      checkPlayModeA_singlePause_eq false s sub v hsub hv hi hmode hedit hrec hseek]
    exact ⟨_, rfl, by simp [hge]⟩

/-- C5 — witness: one entry with precise bounds [100, 900), paused at
clock 950 (past the boundary): resume seeks to 100 and plays; a tick at
950 pauses; ticks at 500, 950, 1200, 5000 (repeatedly past the boundary)
leave the index at 0. -/
theorem singlePause_behavior_witness :
    let s : PlayPageState :=
      { subtitle := some ⟨1, 1, [⟨0, 0, 1000, 100, 900, "a"⟩]⟩
        currentSubtitleIndex := 0
        playMode := PlayMode.singlePause
        editMode := false
        recordingMode := false
        editedTime := ⟨0, 0⟩
        editedText := ""
        isSeeking := false
        video := some ⟨950, true⟩
        isPlaying := false }
    (∃ v', (handleTogglePlayPauseA s).video = some v' ∧
      v'.currentTimeMs = 100 ∧ v'.paused = false ∧
      (handleTogglePlayPauseA s).isPlaying = true) ∧
    (runTicksA s [500, 950, 1200, 5000]).currentSubtitleIndex = 0 := by
  have h := singlePause_behavior
    { subtitle := some ⟨1, 1, [⟨0, 0, 1000, 100, 900, "a"⟩]⟩
      currentSubtitleIndex := 0
      playMode := PlayMode.singlePause
      editMode := false
      recordingMode := false
      editedTime := ⟨0, 0⟩
      editedText := ""
      isSeeking := false
      video := some ⟨950, true⟩
      isPlaying := false }
    ⟨1, 1, [⟨0, 0, 1000, 100, 900, "a"⟩]⟩ ⟨950, true⟩
    rfl rfl (by decide) rfl rfl rfl rfl
  exact ⟨h.1 rfl, h.2.2 [500, 950, 1200, 5000]⟩

/-- C7: each Offset shifts the named boundary by its delta relative to the
boundary's CURRENT buffered value, so two successive offsets on the same
boundary compound additively; in particular +500 then −200 on a boundary
originally valued X leaves it at X + 300, the other boundary untouched. -/
theorem offset_compounds_additively (buf : EditedTime) (o1 o2 : Int)
    (b f1 f2 : Bool) :
    (handleTimeOffset o2 b f2 (handleTimeOffset o1 b f1 buf) =
      (if b then
        { buf with startTime :=
            buf.startTime + (if f1 then o1 else -o1) + (if f2 then o2 else -o2) }
      else
        { buf with endTime :=
            buf.endTime + (if f1 then o1 else -o1) + (if f2 then o2 else -o2) })) ∧
    (handleTimeOffset 200 b false (handleTimeOffset 500 b true buf) =
      (if b then { buf with startTime := buf.startTime + 300 }
       else { buf with endTime := buf.endTime + 300 })) := by
  cases b <;> cases f1 <;> cases f2 <;>
    refine ⟨?_, ?_⟩ <;> simp [handleTimeOffset] <;> omega

/-- C8: when the edit buffer's text trims to the empty string, Save is
rejected: the empty-text warning is surfaced, nothing is written to the
database, and the track contents, the edit buffer and the edit-mode flag
are all left exactly as they were. -/
theorem save_rejected_on_empty_trimmed_text (s : PlayPageState)
    (sub : Subtitle) (hsub : s.subtitle = some sub)
    (hi : s.currentSubtitleIndex ≠ -1) (htrim : jsTrim s.editedText = "") :
    handleSaveSubtitleEdit s =
      { entriesAfter := sub.entries, persisted := none, editMode := s.editMode,
        editedTime := s.editedTime, editedText := s.editedText,
        message := some UserMessage.emptyTextWarning } := by
  unfold handleSaveSubtitleEdit
  rw [hsub]
  simp [hi, htrim]

/-- C8 — witness: whitespace-only text "  " on a one-entry track in edit
mode: the handler warns and changes nothing. -/
theorem save_rejected_on_empty_trimmed_text_witness :
    handleSaveSubtitleEdit
      { subtitle := some ⟨1, 1, [⟨0, 0, 1000, 0, 1000, "a"⟩]⟩
        currentSubtitleIndex := 0
        playMode := PlayMode.continuousPlay
        editMode := true
        recordingMode := false
        editedTime := ⟨100, 900⟩
        editedText := "  "
        isSeeking := false
        video := some ⟨0, true⟩
        isPlaying := false } =
      { entriesAfter := [⟨0, 0, 1000, 0, 1000, "a"⟩], persisted := none,
        editMode := true, editedTime := ⟨100, 900⟩, editedText := "  ",
        message := some UserMessage.emptyTextWarning } :=
  save_rejected_on_empty_trimmed_text _ _ rfl (by decide) (by decide)

/-- C2: the code evaluated at a failing input.  The claim (and the
handler's own comment) says Save builds a NEW track instance and leaves
every entry of the original untouched until the reference swap.  But
`{ ...subtitle }` is a shallow copy — the `entries` array and its entry
objects stay shared — and the handler mutates the target entry in place,
so the pre-save track reference observes the updated bounds and text
(see `SaveResult.entriesAfter`): the original one-entry track
`[{0,0,1000,0,1000,"a"}]` reads `[{0,0,1000,100,900,"b"}]` afterwards. -/
theorem save_mutation_visible_through_old_reference :
    let s : PlayPageState :=
      { subtitle := some ⟨1, 1, [⟨0, 0, 1000, 0, 1000, "a"⟩]⟩
        currentSubtitleIndex := 0
        playMode := PlayMode.continuousPlay
        editMode := true
        recordingMode := false
        editedTime := ⟨100, 900⟩
        editedText := "b"
        isSeeking := false
        video := some ⟨0, true⟩
        isPlaying := false }
    (handleSaveSubtitleEdit s).message = some UserMessage.saveSuccess ∧
    (handleSaveSubtitleEdit s).entriesAfter = [⟨0, 0, 1000, 100, 900, "b"⟩] ∧
    (handleSaveSubtitleEdit s).entriesAfter ≠ [⟨0, 0, 1000, 0, 1000, "a"⟩] := by
  refine ⟨rfl, rfl, ?_⟩
  decide

/-- C10: neither Offset nor Save validates the calibrated times.  A +1500
ms forward offset on a start boundary of 0 yields a buffer whose start
(1500) exceeds its end (1000); a −500 ms backward offset yields a
negative start (−500); in both cases Save (with non-empty text) succeeds
and persists the invalid bounds to the database unchecked. -/
theorem unvalidated_offsets_persist_invalid_bounds :
    (handleTimeOffset 1500 true true ⟨0, 1000⟩ = ⟨1500, 1000⟩) ∧
    (handleTimeOffset 500 true false ⟨0, 1000⟩ = ⟨-500, 1000⟩) ∧
    (let s : PlayPageState :=
      { subtitle := some ⟨1, 1, [⟨0, 0, 1000, 0, 1000, "a"⟩]⟩
        currentSubtitleIndex := 0
        playMode := PlayMode.continuousPlay
        editMode := true
        recordingMode := false
        editedTime := handleTimeOffset 1500 true true ⟨0, 1000⟩
        editedText := "a"
        isSeeking := false
        video := some ⟨0, true⟩
        isPlaying := false }
     (handleSaveSubtitleEdit s).message = some UserMessage.saveSuccess ∧
     (handleSaveSubtitleEdit s).persisted = some [⟨0, 0, 1000, 1500, 1000, "a"⟩] ∧
     (1500 : Int) > 1000) ∧
    (let s' : PlayPageState :=
      { subtitle := some ⟨1, 1, [⟨0, 0, 1000, 0, 1000, "a"⟩]⟩
        currentSubtitleIndex := 0
        playMode := PlayMode.continuousPlay
        editMode := true
        recordingMode := false
        editedTime := handleTimeOffset 500 true false ⟨0, 1000⟩
        editedText := "a"
        isSeeking := false
        video := some ⟨0, true⟩
        isPlaying := false }
     (handleSaveSubtitleEdit s').persisted = some [⟨0, 0, 1000, -500, 1000, "a"⟩] ∧
     (-500 : Int) < 0) := by
  refine ⟨rfl, rfl, ⟨rfl, rfl, by decide⟩, ⟨rfl, by decide⟩⟩

/-- C1: the code evaluated at a failing input.  The claim says a burst of
N rapid index changes within the 500 ms quiet window produces exactly one
persisted write, carrying the last value.  But the effect's dependency
array contains `currentSubtitleIndex`, so its cleanup — which cancels the
pending debounce and writes SYNCHRONOUSLY — runs on EVERY change, not
only at unmount: two changes 100 ms apart (index 1 at t=100, index 2 at
t=200) produce TWO writes, the intermediate value 1 at t=200 and the
debounced final value 2 at t=700.  (The teardown half of the claim does
hold: one change followed by unmount yields exactly one synchronous write
of the latest value and no pending timer.) -/
theorem burst_produces_one_write_per_change :
    ((runPersist [PersistEvent.change 100 1, PersistEvent.change 200 2,
        PersistEvent.idle 1000]).writes = [(200, 1), (700, 2)]) ∧
    ((runPersist [PersistEvent.change 100 5, PersistEvent.teardown 150]).writes
      = [(150, 5)]) ∧
    ((runPersist [PersistEvent.change 100 5, PersistEvent.teardown 150]).pending
      = none) := by
  refine ⟨?_, ?_, ?_⟩ <;> decide

/-- C9 — counterexample.  The claim says that in the variant that does not
clear the seeking flag on scrub end, index advancement remains
PERMANENTLY suspended (the flag is never subsequently reset).  In fact in
that (first) variant the flag does not suspend advancement at all — while
it is set, `checkPlayMode` answers `true` — and the first tick whose
containment scan succeeds updates the index AND resets the flag:
after `handleSeekedA` the flag is `true`, yet one tick at clock 1500 on
the two-entry track advances the index from 0 to 1 and clears the flag. -/
theorem seeking_flag_resets_counterexample :
    let s : PlayPageState :=
      { subtitle := some ⟨1, 1,
          [⟨0, 0, 1000, 0, 1000, "a"⟩, ⟨1, 1000, 2000, 1000, 2000, "b"⟩]⟩
        currentSubtitleIndex := 0
        playMode := PlayMode.continuousPlay
        editMode := false
        recordingMode := false
        editedTime := ⟨0, 0⟩
        editedText := ""
        isSeeking := false
        video := some ⟨1500, false⟩
        isPlaying := true }
    (handleSeekedA s).isSeeking = true ∧
    (handleTimeUpdateA (handleSeekedA s)).currentSubtitleIndex = 1 ∧
    (handleTimeUpdateA (handleSeekedA s)).isSeeking = false := by
  refine ⟨rfl, ?_, ?_⟩ <;> decide

/-- C9 (amended): the two variants' scrub-end behaviors are indeed not
equivalent — the second variant's `handleSeeked` clears the seeking flag
while the first variant's sets it `true` — but in the first variant the
flag is not permanent: while it is set the tick handler bypasses the
play-mode gate, and any tick whose containment scan succeeds updates the
index and resets the flag. -/
theorem seeked_handlers_not_equivalent (s : PlayPageState) :
    (handleSeekedB s).isSeeking = false ∧
    (handleSeekedA s).isSeeking = true ∧
    (handleSeekedA s).isSeeking ≠ (handleSeekedB s).isSeeking ∧
    (∀ sub v, s.subtitle = some sub → s.video = some v → s.isSeeking = true →
      containingIndex sub.entries v.currentTimeMs ≠ -1 →
      (handleTimeUpdateA s).currentSubtitleIndex =
        containingIndex sub.entries v.currentTimeMs ∧
      (handleTimeUpdateA s).isSeeking = false) := by
  refine ⟨rfl, rfl, by simp [handleSeekedA, handleSeekedB], ?_⟩
  intro sub v hsub hv hseek hscan
  have hcheck : checkPlayModeA false s = (s, true) := by
    unfold checkPlayModeA
    rw [hsub, hv]
    split_ifs with h1 <;> simp [hseek]
  unfold handleTimeUpdateA
  rw [hsub, hv, hcheck]
  simp [hscan]

/-- C9 — witness: a state scrubbed to clock 1500 with the flag raised (as
the first variant leaves it): the next tick resolves index 1 and resets
the flag. -/
theorem seeked_handlers_not_equivalent_witness :
    let s : PlayPageState :=
      { subtitle := some ⟨1, 1,
          [⟨0, 0, 1000, 0, 1000, "a"⟩, ⟨1, 1000, 2000, 1000, 2000, "b"⟩]⟩
        currentSubtitleIndex := 0
        playMode := PlayMode.continuousPlay
        editMode := false
        recordingMode := false
        editedTime := ⟨0, 0⟩
        editedText := ""
        isSeeking := true
        video := some ⟨1500, false⟩
        isPlaying := true }
    (handleTimeUpdateA s).currentSubtitleIndex =
      containingIndex
        [⟨0, 0, 1000, 0, 1000, "a"⟩, ⟨1, 1000, 2000, 1000, 2000, "b"⟩] 1500 ∧
    (handleTimeUpdateA s).isSeeking = false := by
  exact (seeked_handlers_not_equivalent
    { subtitle := some ⟨1, 1,
        [⟨0, 0, 1000, 0, 1000, "a"⟩, ⟨1, 1000, 2000, 1000, 2000, "b"⟩]⟩
      currentSubtitleIndex := 0
      playMode := PlayMode.continuousPlay
      editMode := false
      recordingMode := false
      editedTime := ⟨0, 0⟩
      editedText := ""
      isSeeking := true
      video := some ⟨1500, false⟩
      isPlaying := true }).2.2.2 _ _ rfl rfl rfl (by decide)

/-- Helper: `startAt` is monotone on a start-sorted track. -/
theorem startAt_mono {entries : List SubtitleEntry} (hs : SortedByStart entries)
    {i j : Int} (h0 : 0 ≤ i) (hij : i ≤ j) (hj : j < (entries.length : Int)) :
    startAt entries i ≤ startAt entries j := by
  exact sortedByStart_le hs (i := i.toNat) (j := j.toNat) (by omega) (by omega)

/-- Loop invariant for the `next` direction of the binary search: every
position strictly left of the window satisfies `startTime ≤ t`;
`result` is -1 while nothing right of the window has been probed, and
otherwise equals `right + 1`, an in-bounds position with
`startTime > t`.  At exit the loop has found the least position with
`startTime > t`, or -1 when there is none. -/
theorem findLoop_next_inv (entries : List SubtitleEntry) (t : Int)
    (hs : SortedByStart entries) :
    ∀ (n : Nat) (left right result : Int),
      (right + 1 - left).toNat = n →
      0 ≤ left →
      right < (entries.length : Int) →
      (∀ i : Nat, (i : Int) < left → (i : Int) < (entries.length : Int) →
        startAt entries i ≤ t) →
      (result = -1 → right = (entries.length : Int) - 1) →
      (result ≠ -1 →
        0 ≤ result ∧ result = right + 1 ∧ right + 1 < (entries.length : Int) ∧
        t < startAt entries (right + 1)) →
      ((findLoop entries t Direction.next left right result = -1 →
          ∀ i : Nat, (i : Int) < (entries.length : Int) → startAt entries i ≤ t) ∧
       (findLoop entries t Direction.next left right result ≠ -1 →
          0 ≤ findLoop entries t Direction.next left right result ∧
          findLoop entries t Direction.next left right result <
            (entries.length : Int) ∧
          t < startAt entries (findLoop entries t Direction.next left right result) ∧
          ∀ i : Nat,
            (i : Int) < findLoop entries t Direction.next left right result →
            startAt entries i ≤ t)) := by
  intro n
  induction n using Nat.strong_induction_on with
  | _ n ih =>
    intro left right result hn h0 hrlen hlow hres1 hres2
    by_cases hlr : left ≤ right
    · have hmid : left ≤ (left + right) / 2 ∧ (left + right) / 2 ≤ right := by omega
      rw [findLoop]
      simp only [hlr, if_true, ite_true]
      by_cases hcmp : startAt entries ((left + right) / 2) > t
      · rw [if_pos hcmp]
        refine ih ((left + right) / 2 - 1 + 1 - left).toNat (by omega) left
          ((left + right) / 2 - 1) ((left + right) / 2) rfl h0 (by omega) hlow
          (by intro h; omega) ?_
        intro _
        refine ⟨by omega, by omega, by omega, ?_⟩
        rw [show (left + right) / 2 - 1 + 1 = (left + right) / 2 by omega]
        exact hcmp
      · rw [if_neg hcmp]
        push_neg at hcmp
        refine ih (right + 1 - ((left + right) / 2 + 1)).toNat (by omega)
          ((left + right) / 2 + 1) right result rfl (by omega) hrlen ?_ hres1 hres2
        intro i hi hilen
        by_cases hcase : (i : Int) < left
        · exact hlow i hcase hilen
        · have hle : startAt entries (i : Int) ≤ startAt entries ((left + right) / 2) :=
            startAt_mono hs (by omega) (by omega) (by omega)
          omega
    · rw [findLoop]
      simp only [hlr, if_false, ite_false]
      constructor
      · intro h i hilen
        have hr := hres1 h
        exact hlow i (by omega) hilen
      · intro h
        obtain ⟨hpos, he, hlen2, hgt⟩ := hres2 h
        refine ⟨by omega, by omega, ?_, ?_⟩
        · rw [he]; exact hgt
        · intro i hi
          exact hlow i (by omega) (by omega)

/-- Loop invariant for the `previous` direction of the binary search:
every position strictly right of the window satisfies `t ≤ startTime`;
`result` is -1 while nothing left of the window has been probed, and
otherwise equals `left - 1`, an in-bounds position with
`startTime < t`.  At exit the loop has found the greatest position with
`startTime < t`, or -1 when there is none. -/
theorem findLoop_prev_inv (entries : List SubtitleEntry) (t : Int)
    (hs : SortedByStart entries) :
    ∀ (n : Nat) (left right result : Int),
      (right + 1 - left).toNat = n →
      0 ≤ left →
      right < (entries.length : Int) →
      (∀ i : Nat, right < (i : Int) → (i : Int) < (entries.length : Int) →
        t ≤ startAt entries i) →
      (result = -1 → left = 0) →
      (result ≠ -1 →
        result = left - 1 ∧ 0 ≤ result ∧ result < (entries.length : Int) ∧
        startAt entries result < t) →
      ((findLoop entries t Direction.previous left right result = -1 →
          ∀ i : Nat, (i : Int) < (entries.length : Int) → t ≤ startAt entries i) ∧
       (findLoop entries t Direction.previous left right result ≠ -1 →
          0 ≤ findLoop entries t Direction.previous left right result ∧
          findLoop entries t Direction.previous left right result <
            (entries.length : Int) ∧
          startAt entries (findLoop entries t Direction.previous left right result)
            < t ∧
          ∀ i : Nat,
            findLoop entries t Direction.previous left right result < (i : Int) →
            (i : Int) < (entries.length : Int) → t ≤ startAt entries i)) := by
  intro n
  induction n using Nat.strong_induction_on with
  | _ n ih =>
    intro left right result hn h0 hrlen hhigh hres1 hres2
    by_cases hlr : left ≤ right
    · have hmid : left ≤ (left + right) / 2 ∧ (left + right) / 2 ≤ right := by omega
      rw [findLoop]
      simp only [hlr, if_true, ite_true]
      by_cases hcmp : startAt entries ((left + right) / 2) < t
      · rw [if_pos hcmp]
        refine ih (right + 1 - ((left + right) / 2 + 1)).toNat (by omega)
          ((left + right) / 2 + 1) right ((left + right) / 2) rfl (by omega)
          hrlen hhigh (by intro h; omega) ?_
        intro _
        exact ⟨by omega, by omega, by omega, hcmp⟩
      · rw [if_neg hcmp]
        push_neg at hcmp
        refine ih ((left + right) / 2 - 1 + 1 - left).toNat (by omega) left
          ((left + right) / 2 - 1) result rfl h0 (by omega) ?_ hres1 hres2
        intro i hi hilen
        by_cases hcase : right < (i : Int)
        · exact hhigh i hcase hilen
        · have hle : startAt entries ((left + right) / 2) ≤ startAt entries (i : Int) :=
            startAt_mono hs (by omega) (by omega) (by omega)
          omega
    · rw [findLoop]
      simp only [hlr, if_false, ite_false]
      constructor
      · intro h i hilen
        have hl := hres1 h
        exact hhigh i (by omega) hilen
      · intro h
        obtain ⟨he, hpos, hlen2, hlt⟩ := hres2 h
        refine ⟨hpos, hlen2, hlt, ?_⟩
        intro i hi hilen
        exact hhigh i (by omega) hilen

/-- Helper: `startAt` at a position known via `getElem?`. -/
theorem startAt_of_getElem {entries : List SubtitleEntry} {k : Nat}
    {e : SubtitleEntry} (h : entries[k]? = some e) :
    startAt entries (k : Int) = e.startTime := by
  simp [startAt, List.getD_eq_getElem?_getD, h]

/-- Helper: the `next` search of the first variant returns the least
in-bounds position with `startTime > t`, or -1 when there is none. -/
theorem findNext_spec (entries : List SubtitleEntry) (t : Int)
    (hs : SortedByStart entries) :
    (findSubtitleIndexByTime entries t Direction.next = -1 ↔
      ∀ i : Nat, (i : Int) < (entries.length : Int) → startAt entries i ≤ t) ∧
    (findSubtitleIndexByTime entries t Direction.next ≠ -1 →
      0 ≤ findSubtitleIndexByTime entries t Direction.next ∧
      findSubtitleIndexByTime entries t Direction.next < (entries.length : Int) ∧
      t < startAt entries (findSubtitleIndexByTime entries t Direction.next) ∧
      ∀ i : Nat, (i : Int) < findSubtitleIndexByTime entries t Direction.next →
        startAt entries i ≤ t) := by
  unfold findSubtitleIndexByTime
  have hinv := findLoop_next_inv entries t hs
    (((entries.length : Int) - 1) + 1 - 0).toNat 0 ((entries.length : Int) - 1)
    (-1) rfl (le_refl 0) (by omega)
    (by intro i hi _; exact absurd hi (by omega))
    (fun _ => rfl) (fun h => absurd rfl h)
  refine ⟨⟨hinv.1, ?_⟩, hinv.2⟩
  intro hall
  by_contra hne
  obtain ⟨h0, hlen, hgt, _⟩ := hinv.2 hne
  have := hall (findLoop entries t Direction.next 0 ((entries.length : Int) - 1)
    (-1)).toNat (by omega)
  rw [show (((findLoop entries t Direction.next 0 ((entries.length : Int) - 1)
        (-1)).toNat : Nat) : Int)
      = findLoop entries t Direction.next 0 ((entries.length : Int) - 1) (-1) by
      omega] at this
  omega

/-- Helper: the `previous` search of the first variant returns the
greatest in-bounds position with `startTime < t`, or -1 when there is
none. -/
theorem findPrev_spec (entries : List SubtitleEntry) (t : Int)
    (hs : SortedByStart entries) :
    (findSubtitleIndexByTime entries t Direction.previous = -1 ↔
      ∀ i : Nat, (i : Int) < (entries.length : Int) → t ≤ startAt entries i) ∧
    (findSubtitleIndexByTime entries t Direction.previous ≠ -1 →
      0 ≤ findSubtitleIndexByTime entries t Direction.previous ∧
      findSubtitleIndexByTime entries t Direction.previous <
        (entries.length : Int) ∧
      startAt entries (findSubtitleIndexByTime entries t Direction.previous) < t ∧
      ∀ i : Nat,
        findSubtitleIndexByTime entries t Direction.previous < (i : Int) →
        (i : Int) < (entries.length : Int) → t ≤ startAt entries i) := by
  unfold findSubtitleIndexByTime
  have hinv := findLoop_prev_inv entries t hs
    (((entries.length : Int) - 1) + 1 - 0).toNat 0 ((entries.length : Int) - 1)
    (-1) rfl (le_refl 0) (by omega)
    (by intro i hi hilen; exact absurd hi (by omega))
    (fun _ => rfl) (fun h => absurd rfl h)
  refine ⟨⟨hinv.1, ?_⟩, hinv.2⟩
  intro hall
  by_contra hne
  obtain ⟨h0, hlen, hlt, _⟩ := hinv.2 hne
  have := hall (findLoop entries t Direction.previous 0
    ((entries.length : Int) - 1) (-1)).toNat (by omega)
  rw [show (((findLoop entries t Direction.previous 0 ((entries.length : Int) - 1)
        (-1)).toNat : Nat) : Int)
      = findLoop entries t Direction.previous 0 ((entries.length : Int) - 1) (-1) by
      omega] at this
  omega

/-- C6: for every track sorted ascending by `startTime` — the empty track
returns -1 in both directions; for `t` strictly before the first entry's
`startTime`, `next` returns 0 and `previous` returns -1; for `t` strictly
after the last entry's `startTime`, `next` returns -1 and `previous`
returns the last index; and in general `next` returns the least index
with `startTime > t` (or -1 when none exists) while `previous` returns
the greatest index with `startTime < t` (or -1 when none exists). -/
theorem directional_search_edge_cases (entries : List SubtitleEntry) (t : Int)
    (hs : SortedByStart entries) :
    (entries = [] →
      findSubtitleIndexByTime entries t Direction.next = -1 ∧
      findSubtitleIndexByTime entries t Direction.previous = -1) ∧
    (∀ e0 ∈ entries[0]?, t < e0.startTime →
      findSubtitleIndexByTime entries t Direction.next = 0 ∧
      findSubtitleIndexByTime entries t Direction.previous = -1) ∧
    (∀ el ∈ entries[entries.length - 1]?, el.startTime < t →
      findSubtitleIndexByTime entries t Direction.next = -1 ∧
      findSubtitleIndexByTime entries t Direction.previous =
        (entries.length : Int) - 1) ∧
    (findSubtitleIndexByTime entries t Direction.next = -1 ↔
      ∀ i : Nat, (i : Int) < (entries.length : Int) → startAt entries i ≤ t) ∧
    (findSubtitleIndexByTime entries t Direction.next ≠ -1 →
      0 ≤ findSubtitleIndexByTime entries t Direction.next ∧
      findSubtitleIndexByTime entries t Direction.next < (entries.length : Int) ∧
      t < startAt entries (findSubtitleIndexByTime entries t Direction.next) ∧
      ∀ i : Nat, (i : Int) < findSubtitleIndexByTime entries t Direction.next →
        startAt entries i ≤ t) ∧
    (findSubtitleIndexByTime entries t Direction.previous = -1 ↔
      ∀ i : Nat, (i : Int) < (entries.length : Int) → t ≤ startAt entries i) ∧
    (findSubtitleIndexByTime entries t Direction.previous ≠ -1 →
      0 ≤ findSubtitleIndexByTime entries t Direction.previous ∧
      findSubtitleIndexByTime entries t Direction.previous <
        (entries.length : Int) ∧
      startAt entries (findSubtitleIndexByTime entries t Direction.previous) < t ∧
      ∀ i : Nat,
        findSubtitleIndexByTime entries t Direction.previous < (i : Int) →
        (i : Int) < (entries.length : Int) → t ≤ startAt entries i) := by
  obtain ⟨hniff, hnspec⟩ := findNext_spec entries t hs
  obtain ⟨hpiff, hpspec⟩ := findPrev_spec entries t hs
  refine ⟨?_, ?_, ?_, hniff, hnspec, hpiff, hpspec⟩
  · rintro rfl
    constructor
    · refine hniff.mpr ?_
      intro i hi
      simp only [List.length_nil, Nat.cast_zero] at hi
      omega
    · refine hpiff.mpr ?_
      intro i hi
      simp only [List.length_nil, Nat.cast_zero] at hi
      omega
  · intro e0 hget hlt
    rw [Option.mem_def] at hget
    have hlen0 : 0 < entries.length := by
      cases entries with
      | nil => simp at hget
      | cons a l => simp
    have hstart0 : startAt entries ((0 : Nat) : Int) = e0.startTime :=
      startAt_of_getElem hget
    have hne : findSubtitleIndexByTime entries t Direction.next ≠ -1 := by
      intro hm1
      have := (hniff.mp hm1) 0 (by omega)
      omega
    obtain ⟨h0, hlen, hgt, hleast⟩ := hnspec hne
    constructor
    · by_contra hne0
      have := hleast 0 (by omega)
      omega
    · refine hpiff.mpr ?_
      intro i hi
      have hmono : startAt entries ((0 : Nat) : Int) ≤ startAt entries (i : Int) :=
        startAt_mono hs (by omega) (by omega) hi
      omega
  · intro el hget hlt
    rw [Option.mem_def] at hget
    have hlen0 : 0 < entries.length := by
      cases entries with
      | nil => simp at hget
      | cons a l => simp
    have hstartl :
        startAt entries ((entries.length - 1 : Nat) : Int) = el.startTime :=
      startAt_of_getElem hget
    constructor
    · refine hniff.mpr ?_
      intro i hi
      have hmono : startAt entries (i : Int) ≤
          startAt entries ((entries.length - 1 : Nat) : Int) :=
        startAt_mono hs (by omega) (by omega) (by omega)
      omega
    · have hne : findSubtitleIndexByTime entries t Direction.previous ≠ -1 := by
        intro hm1
        have := (hpiff.mp hm1) (entries.length - 1) (by omega)
        omega
      obtain ⟨h0, hlenp, hltp, hgreatest⟩ := hpspec hne
      by_contra hne2
      have := hgreatest (entries.length - 1) (by omega) (by omega)
      omega

/-- C6 — witness: on the sorted track with start times 0, 1000, 2000 —
t = −5 (before the first start) gives next = 0 and previous = −1;
t = 2500 (after the last start) gives next = −1 and previous = 2; the
empty track gives −1 in both directions (t = 100). -/
theorem directional_search_edge_cases_witness :
    (findSubtitleIndexByTime
        [⟨0, 0, 500, 0, 500, "a"⟩, ⟨1, 1000, 1500, 1000, 1500, "b"⟩,
         ⟨2, 2000, 2500, 2000, 2500, "c"⟩] (-5) Direction.next = 0 ∧
     findSubtitleIndexByTime
        [⟨0, 0, 500, 0, 500, "a"⟩, ⟨1, 1000, 1500, 1000, 1500, "b"⟩,
         ⟨2, 2000, 2500, 2000, 2500, "c"⟩] (-5) Direction.previous = -1) ∧
    (findSubtitleIndexByTime
        [⟨0, 0, 500, 0, 500, "a"⟩, ⟨1, 1000, 1500, 1000, 1500, "b"⟩,
         ⟨2, 2000, 2500, 2000, 2500, "c"⟩] 2500 Direction.next = -1 ∧
     findSubtitleIndexByTime
        [⟨0, 0, 500, 0, 500, "a"⟩, ⟨1, 1000, 1500, 1000, 1500, "b"⟩,
         ⟨2, 2000, 2500, 2000, 2500, "c"⟩] 2500 Direction.previous = 2) ∧
    (findSubtitleIndexByTime [] 100 Direction.next = -1 ∧
     findSubtitleIndexByTime [] 100 Direction.previous = -1) :=
  ⟨(directional_search_edge_cases
      [⟨0, 0, 500, 0, 500, "a"⟩, ⟨1, 1000, 1500, 1000, 1500, "b"⟩,
       ⟨2, 2000, 2500, 2000, 2500, "c"⟩] (-5)
      (by unfold SortedByStart; decide)).2.1
      ⟨0, 0, 500, 0, 500, "a"⟩ (Option.mem_def.mpr rfl) (by decide),
   (directional_search_edge_cases
      [⟨0, 0, 500, 0, 500, "a"⟩, ⟨1, 1000, 1500, 1000, 1500, "b"⟩,
       ⟨2, 2000, 2500, 2000, 2500, "c"⟩] 2500
      (by unfold SortedByStart; decide)).2.2.1
      ⟨2, 2000, 2500, 2000, 2500, "c"⟩ (Option.mem_def.mpr rfl) (by decide),
   (directional_search_edge_cases [] 100
      (by unfold SortedByStart; decide)).1 rfl⟩

end Shadowing
